import Mathlib

set_option linter.unusedVariables false

/-!
Verification of the multichannel-imager transform core.

The program turns a 4-D microscopy volume (Z, C, X, Y) into per-slice RGB
composites.  We embed the numeric pipeline shallowly: numpy float arrays
become total functions over natural-number indices with rational sample
values, the imperative per-channel / per-slice loops become folds over an
explicit state that carries both the input array and the output array
(mirroring the source, which allocates an output buffer and writes into it
while reading the input), and Python exceptions (list IndexError) become
Option failure.
-/

set_option allowUnsafeReducibility true

attribute [semireducible] Rat.add Rat.mul Rat.inv Rat.sub

/-- A 4-axis numpy array is modelled as a total function from indices to
rational sample values; the extents are carried separately, as in the
source where they come from the array's shape. -/
abbrev Arr4 : Type := ℕ → ℕ → ℕ → ℕ → ℚ

/-- Model of numpy zero-initialised allocation (np.zeros / np.zeros_like). -/
def zeroArr : Arr4 := fun _ _ _ _ => 0

/-- Model of np.clip applied pointwise: clip(v, lo, hi) = min(max(v, lo), hi). -/
def clip (v lo hi : ℚ) : ℚ := min (max v lo) hi

/-- All samples of channel c over the full (Z, X, Y) extent, i.e. the data of
the numpy slice volume[:, c, :, :] flattened. -/
def channelSamples (Z X Y : ℕ) (vol : Arr4) (c : ℕ) : List ℚ :=
  (List.range Z).flatMap fun z =>
    (List.range X).flatMap fun x =>
      (List.range Y).map fun y => vol z c x y

/-- Model of np.percentile with its default linear-interpolation method:
sort the samples, take position p/100*(n-1) and interpolate between the
adjacent order statistics.  (On an empty sample list numpy yields NaN; we
return 0, which agrees with the source's observable behaviour because both
NaN > NaN and 0 > 0 are false in the normalizer's window test.) -/
def percentile (xs : List ℚ) (p : ℚ) : ℚ :=
  let ys := List.insertionSort (· ≤ ·) xs
  if ys.length = 0 then 0
  else
    let pos : ℚ := p / 100 * ((ys.length : ℚ) - 1)
    let i : ℕ := (⌊pos⌋).toNat
    let lo := ys.getD i 0
    let hi := ys.getD (i + 1) lo
    lo + (pos - (i : ℚ)) * (hi - lo)

/-- State of normalize_channels_with_percentiles: the input volume and the
output buffer norm_volume (allocated as np.zeros_like(volume)). -/
structure NormState where
  volume : Arr4
  norm_volume : Arr4

/-- Model of the slice assignment norm_volume[:, c] = f. -/
def writeChannel (arr : Arr4) (c : ℕ) (f : ℕ → ℕ → ℕ → ℚ) : Arr4 :=
  fun z c' x y => if c' = c then f z x y else arr z c' x y

/-- One iteration of the channel loop of normalize_channels_with_percentiles:
read percentiles[c] (IndexError, i.e. failure, when out of range), compute
vmin / vmax over the channel samples, and write the channel of norm_volume:
the clipped affine rescale when vmax > vmin, zero otherwise. -/
def normStep (Z X Y : ℕ) (percs : List (ℚ × ℚ)) (s : NormState) (c : ℕ) :
    Option NormState :=
  match percs[c]? with
  | none => none
  | some pc =>
    let ch : ℕ → ℕ → ℕ → ℚ := fun z x y => s.volume z c x y
    let vmin := percentile (channelSamples Z X Y s.volume c) pc.1
    let vmax := percentile (channelSamples Z X Y s.volume c) pc.2
    some
      { volume := s.volume
        norm_volume :=
          if vmax > vmin then
            writeChannel s.norm_volume c
              (fun z x y => clip ((ch z x y - vmin) / (vmax - vmin)) 0 1)
          else
            writeChannel s.norm_volume c (fun _ _ _ => 0) }

/-- The channel loop for c in range(C), starting from the freshly allocated
zero output buffer. -/
def normalizeRun (Z C X Y : ℕ) (vol : Arr4) (percs : List (ℚ × ℚ)) :
    Option NormState :=
  (List.range C).foldlM (normStep Z X Y percs) { volume := vol, norm_volume := zeroArr }

/-- Embedding of normalize_channels_with_percentiles(volume, percentiles):
returns the output buffer; none models an uncaught IndexError. -/
def normalize_channels_with_percentiles (Z C X Y : ℕ) (vol : Arr4)
    (percs : List (ℚ × ℚ)) : Option Arr4 :=
  (normalizeRun Z C X Y vol percs).map NormState.norm_volume

/-- The lower percentile bound vmin used by the normalizer for channel c. -/
def channelVmin (Z X Y : ℕ) (vol : Arr4) (percs : List (ℚ × ℚ)) (c : ℕ) : ℚ :=
  percentile (channelSamples Z X Y vol c) (percs.getD c (0, 0)).1

/-- The upper percentile bound vmax used by the normalizer for channel c. -/
def channelVmax (Z X Y : ℕ) (vol : Arr4) (percs : List (ℚ × ℚ)) (c : ℕ) : ℚ :=
  percentile (channelSamples Z X Y vol c) (percs.getD c (0, 0)).2

/-- The value the normalizer stores for channel c at (z, x, y). -/
def chanVal (Z X Y : ℕ) (vol : Arr4) (pc : ℚ × ℚ) (c z x y : ℕ) : ℚ :=
  let vmin := percentile (channelSamples Z X Y vol c) pc.1
  let vmax := percentile (channelSamples Z X Y vol c) pc.2
  if vmax > vmin then clip ((vol z c x y - vmin) / (vmax - vmin)) 0 1 else 0

-- sanity checks on concrete values
example : percentile [(0:ℚ), 1] 0 = 0 := by decide
example : percentile [(0:ℚ), 1] 100 = 1 := by decide
example : percentile [(0:ℚ), 10, 20, 30] 50 = 15 := by decide
example : percentile [(0:ℚ), 10, 20, 30] 25 = 15/2 := by decide
example : channelSamples 1 1 2 (fun _ _ _ y => (y : ℚ)) 0 = [0, 1] := by decide

/-- Value of a single hexadecimal digit, as accepted by Python int(-, 16),
by character code: 48-57 are the digits, 97-102 are a-f, 65-70 are A-F. -/
def hexDigitVal (c : Char) : Option ℕ :=
  if 48 ≤ c.toNat ∧ c.toNat ≤ 57 then some (c.toNat - 48)
  else if 97 ≤ c.toNat ∧ c.toNat ≤ 102 then some (c.toNat - 87)
  else if 65 ≤ c.toNat ∧ c.toNat ≤ 70 then some (c.toNat - 55)
  else none

/-- Model of int(s, 16) on the two-character slices taken below (none models
the ValueError Python raises on an empty or non-hexadecimal slice). -/
def parseHexPair (cs : List Char) : Option ℕ :=
  match cs with
  | [c1, c2] => do
      let d1 ← hexDigitVal c1
      let d2 ← hexDigitVal c2
      some (d1 * 16 + d2)
  | [c1] => hexDigitVal c1
  | _ => none

/-- Embedding of hex_to_rgb_floats(hex_color): parse the slices
hex_color[1:3], hex_color[3:5], hex_color[5:7] as hexadecimal bytes and
divide each by 255.0.  Python strings are modelled as Char lists and the
slices with drop/take, which like Python slicing cannot fail. -/
def hex_to_rgb_floats (s : List Char) : Option (ℚ × ℚ × ℚ) := do
  let r ← parseHexPair ((s.drop 1).take 2)
  let g ← parseHexPair ((s.drop 3).take 2)
  let b ← parseHexPair ((s.drop 5).take 2)
  some ((r : ℚ) / 255, (g : ℚ) / 255, (b : ℚ) / 255)

/-- State of multichannel_to_rgb_stack: the (already normalized) input volume
and the output buffer rgb_stack, allocated as np.zeros((Z, X, Y, 3)) and
indexed (z, x, y, k). -/
structure RenderState where
  volume : Arr4
  rgb_stack : Arr4

/-- Model of the in-place accumulation rgb_stack[z, :, :, k] += f. -/
def addPlane (rgb : Arr4) (z k : ℕ) (f : ℕ → ℕ → ℚ) : Arr4 :=
  fun z' x y k' => if z' = z ∧ k' = k then rgb z' x y k' + f x y else rgb z' x y k'

/-- Component k of an RGB colour triple (k = 0, 1, 2; other indices are
outside the allocated colour axis and contribute nothing). -/
def colorComp (col : ℚ × ℚ × ℚ) (k : ℕ) : ℚ :=
  if k = 0 then col.1 else if k = 1 then col.2.1 else if k = 2 then col.2.2 else 0

/-- The three accumulation statements for one visible channel:
rgb_stack[z,:,:,0] += gray*r; rgb_stack[z,:,:,1] += gray*g;
rgb_stack[z,:,:,2] += gray*b. -/
def addRGB (rgb : Arr4) (z : ℕ) (gray : ℕ → ℕ → ℚ) (col : ℚ × ℚ × ℚ) : Arr4 :=
  addPlane
    (addPlane
      (addPlane rgb z 0 (fun x y => gray x y * col.1))
      z 1 (fun x y => gray x y * col.2.1))
    z 2 (fun x y => gray x y * col.2.2)

/-- One iteration of `for c, (r, g, b) in enumerate(channel_colors)`: look up
visibility[c] (IndexError when out of range), and when the channel is
visible read gray = volume[z, c] — an IndexError when the channel index is
outside the volume's channel axis (c ≥ C), since numpy bounds-checks the
integer index — and accumulate it weighted by the colour. -/
def renderChanStep (C : ℕ) (vis : List Bool) (z : ℕ) (s : RenderState)
    (p : ℕ × (ℚ × ℚ × ℚ)) : Option RenderState :=
  match vis[p.1]? with
  | none => none
  | some v =>
    if v then
      if p.1 < C then
        some
          { volume := s.volume
            rgb_stack := addRGB s.rgb_stack z (fun x y => s.volume z p.1 x y) p.2 }
      else none
    else some s

/-- Model of the per-slice clamp rgb_stack[z] = np.clip(rgb_stack[z], 0, 1). -/
def clipSlice (rgb : Arr4) (z : ℕ) : Arr4 :=
  fun z' x y k => if z' = z then clip (rgb z' x y k) 0 1 else rgb z' x y k

/-- The body of the z loop: fold the channel loop over enumerate(channel_colors),
then clamp the slice. -/
def renderZStep (C : ℕ) (colors : List (ℚ × ℚ × ℚ)) (vis : List Bool)
    (s : RenderState) (z : ℕ) : Option RenderState :=
  (colors.enum.foldlM (renderChanStep C vis z) s).map fun s' =>
    { volume := s'.volume, rgb_stack := clipSlice s'.rgb_stack z }

/-- The z loop for z in range(Z), starting from the freshly allocated zero
output buffer. -/
def renderRun (Z C : ℕ) (vol : Arr4) (colors : List (ℚ × ℚ × ℚ))
    (vis : List Bool) : Option RenderState :=
  (List.range Z).foldlM (renderZStep C colors vis) { volume := vol, rgb_stack := zeroArr }

/-- Embedding of multichannel_to_rgb_stack(volume, channel_colors, visibility).
The Z, C, X, Y extents are unpacked from the shape in the source; the loops
use Z, and C bounds the volume read volume[z, c] of each visible channel. -/
def multichannel_to_rgb_stack (Z C X Y : ℕ) (vol : Arr4)
    (colors : List (ℚ × ℚ × ℚ)) (vis : List Bool) : Option Arr4 :=
  (renderRun Z C vol colors vis).map RenderState.rgb_stack

/-- A raw numpy array of arbitrary rank: its shape and a total index
function (indices outside the shape are never consulted by the pipeline). -/
structure NDArr where
  shape : List ℕ
  data : List ℕ → ℚ

/-- The shape error surfaced by the module-level shape check (st.error
followed by st.stop, which aborts before any numeric work). -/
inductive ShapeErr where
  | unsupportedShape : List ℕ → ShapeErr

/-- Model of img = img[0]: drop the leading axis. -/
def collapse0 (a : NDArr) : NDArr :=
  { shape := a.shape.tail, data := fun ix => a.data (0 :: ix) }

/-- Embedding of the module-level shape check: a 5-D array with leading axis
of size 1 is collapsed and falls through to the 4-D check, any other 5-D
array is rejected at once, and anything whose dimensionality is not 4 at the
final check is rejected. -/
def resolveShape (a : NDArr) : Except ShapeErr NDArr :=
  if a.shape.length = 5 then
    if a.shape.headD 0 = 1 then
      if (collapse0 a).shape.length ≠ 4 then
        Except.error (ShapeErr.unsupportedShape (collapse0 a).shape)
      else Except.ok (collapse0 a)
    else Except.error (ShapeErr.unsupportedShape a.shape)
  else
    if a.shape.length ≠ 4 then Except.error (ShapeErr.unsupportedShape a.shape)
    else Except.ok a

/-- Prepend a trivial leading axis of size 1, producing the (1,Z,C,X,Y)
variant of a 4-D array: index (0, rest) reads the original at rest. -/
def prepend1 (a : NDArr) : NDArr :=
  { shape := 1 :: a.shape, data := fun ix => a.data ix.tail }

/-- Read a 4-D raw array through the Arr4 interface. -/
def interp4 (a : NDArr) : Arr4 := fun z c x y => a.data [z, c, x, y]

/-- The full numeric pipeline as run by the module-level code: shape
resolution, percentile normalization, RGB compositing.  none models an
exception escaping one of the numeric stages or a shape failure. -/
def pipeline (a : NDArr) (percs : List (ℚ × ℚ)) (colors : List (ℚ × ℚ × ℚ))
    (vis : List Bool) : Option Arr4 :=
  match resolveShape a with
  | Except.error _ => none
  | Except.ok b =>
    match b.shape with
    | [Z, C, X, Y] =>
      match normalize_channels_with_percentiles Z C X Y (interp4 b) percs with
      | none => none
      | some nv => multichannel_to_rgb_stack Z C X Y nv colors vis
    | _ => none

/-- Model of the export conversion (rgb_stack[z] * 255).astype(np.uint8)
applied to one sample: numpy's float-to-integer cast truncates toward
zero. -/
def astype_u8 (v : ℚ) : ℤ := Int.tdiv (v * 255).num ((v * 255).den : ℤ)

/-- Modelled from the spec words for comparison: round(value*255) clamped
to [0, 255]. -/
def specRoundU8 (v : ℚ) : ℤ := min 255 (max 0 (round (v * 255)))

/-- Model of the Python format f"{z:03d}": decimal digits left-padded with
zeros to width 3. -/
def pad3 (n : ℕ) : String :=
  String.mk (List.replicate (3 - (Nat.repr n).length) '0') ++ Nat.repr n

/-- Embedding of the download filename f"z_{z:03d}.png". -/
def slice_filename (z : ℕ) : String := "z_" ++ pad3 z ++ ".png"

/-- The contribution one (channel index, colour) pair of
enumerate(channel_colors) adds at (x, y) on colour plane k of slice z. -/
def chanContrib (vol : Arr4) (vis : List Bool) (z x y k : ℕ)
    (p : ℕ × (ℚ × ℚ × ℚ)) : ℚ :=
  if vis.getD p.1 false = true then vol z p.1 x y * colorComp p.2 k else 0

/-- The raw (pre-clamp) accumulated value of colour plane k at (x, y) of
slice z: the sum of the visible channels' contributions. -/
def sliceSum (vol : Arr4) (vis : List Bool) (colors : List (ℚ × ℚ × ℚ))
    (z x y k : ℕ) : ℚ :=
  (colors.enum.map (chanContrib vol vis z x y k)).sum

/-- A pair of enumerate(channel_colors) whose processing is bound to raise:
either its visibility lookup is out of range, or the channel is visible and
its index is outside the volume's channel axis. -/
def fatalPair (C : ℕ) (vis : List Bool) (p : ℕ × (ℚ × ℚ × ℚ)) : Prop :=
  vis[p.1]? = none ∨ (vis[p.1]? = some true ∧ C ≤ p.1)

/-- Witness volume: one channel whose two samples are 0 and 1. -/
def vol01 : Arr4 := fun _ _ _ y => (y : ℚ)

/-- Witness volume: a constant channel (value 5 everywhere). -/
def vol5const : Arr4 := fun _ _ _ _ => (5 : ℚ)

/-- Constant-zero data function for witness arrays. -/
def dataZero : List ℕ → ℚ := fun _ => 0

/-- Witness array: 5-D with leading axis of size 2. -/
def arr5bad : NDArr := { shape := [2, 2, 2, 2, 2], data := dataZero }

/-- Witness array: 3-D. -/
def arr3d : NDArr := { shape := [2, 2, 2], data := dataZero }

/-- Witness array: 5-D with a trivial leading axis. -/
def arr5good : NDArr := { shape := [1, 2, 3, 4, 5], data := dataZero }

/-- Witness array: 4-D. -/
def arr4ok : NDArr := { shape := [2, 3, 4, 5], data := dataZero }

-- sanity checks on concrete values
example : hex_to_rgb_floats "#FF8000".toList = some (1, 128/255, 0) := by decide
example : slice_filename 7 = "z_007.png" := by decide
example : slice_filename 1234 = "z_1234.png" := by decide
example : astype_u8 (1/2) = 127 := by decide
example : specRoundU8 (1/2) = 128 := by decide

/-! ## Helper lemmas about the normalizer -/

theorem clip01_bounds (v : ℚ) : 0 ≤ clip v 0 1 ∧ clip v 0 1 ≤ 1 := by
  unfold clip
  exact ⟨le_min (le_max_right v 0) (by norm_num), min_le_right _ _⟩

theorem normStep_spec (Z X Y : ℕ) (percs : List (ℚ × ℚ)) (s : NormState) (c : ℕ)
    (hc : c < percs.length) :
    ∃ s1, normStep Z X Y percs s c = some s1 ∧ s1.volume = s.volume ∧
      ∀ z c' x y, s1.norm_volume z c' x y =
        if c' = c then chanVal Z X Y s.volume (percs.getD c (0, 0)) c z x y
        else s.norm_volume z c' x y := by
  have h1 : percs[c]? = some percs[c] := List.getElem?_eq_getElem hc
  have h2 : percs.getD c (0, 0) = percs[c] := List.getD_eq_getElem percs (0, 0) hc
  unfold normStep
  rw [h1]
  refine ⟨_, rfl, rfl, ?_⟩
  intro z c' x y
  simp only [chanVal, h2]
  by_cases hec : c' = c
  · subst hec
    by_cases hlt :
        percentile (channelSamples Z X Y s.volume c') (percs[c']).2 >
          percentile (channelSamples Z X Y s.volume c') (percs[c']).1 <;>
      simp [writeChannel, hlt]
  · by_cases hlt :
        percentile (channelSamples Z X Y s.volume c) (percs[c]).2 >
          percentile (channelSamples Z X Y s.volume c) (percs[c]).1 <;>
      simp [writeChannel, hec, hlt]

theorem normFold (Z X Y : ℕ) (percs : List (ℚ × ℚ)) (vol : Arr4) :
    ∀ (cs : List ℕ) (s : NormState), s.volume = vol →
      (∀ c ∈ cs, c < percs.length) →
      ∃ s', List.foldlM (normStep Z X Y percs) s cs = some s' ∧
        s'.volume = vol ∧
        ∀ z c' x y, s'.norm_volume z c' x y =
          if c' ∈ cs then chanVal Z X Y vol (percs.getD c' (0, 0)) c' z x y
          else s.norm_volume z c' x y := by
  intro cs
  induction cs with
  | nil =>
    intro s hs _
    exact ⟨s, rfl, hs, by simp⟩
  | cons c cs ih =>
    intro s hs hmem
    have hc : c < percs.length := hmem c (List.mem_cons_self c cs)
    obtain ⟨s1, hstep, hvol1, hval1⟩ := normStep_spec Z X Y percs s c hc
    obtain ⟨s', hfold, hvol', hval'⟩ :=
      ih s1 (hvol1.trans hs) (fun c' hc' => hmem c' (List.mem_cons_of_mem c hc'))
    refine ⟨s', ?_, hvol', ?_⟩
    · rw [List.foldlM_cons, hstep]
      exact hfold
    · intro z c' x y
      rw [hval' z c' x y]
      by_cases hin : c' ∈ cs
      · simp [hin]
      · rw [if_neg hin, hval1 z c' x y]
        by_cases hec : c' = c
        · subst hec
          rw [if_pos rfl, if_pos (List.mem_cons_self c' cs)]
          rw [hs]
        · simp [hec, hin]

/-- The volume extracted through a successful normalizer run for membership
proofs about range C. -/
theorem range_mem_lt {C bound : ℕ} (hlen : C ≤ bound) :
    ∀ c ∈ List.range C, c < bound :=
  fun _ hc => lt_of_lt_of_le (List.mem_range.mp hc) hlen

/-- Claim C1: for every channel c with a non-degenerate percentile window
(vmax > vmin), the normalizer produces
output[z,c,x,y] = clip((input[z,c,x,y] - vmin) / (vmax - vmin), 0, 1) at
every (z,x,y), where vmin and vmax are the linear-interpolation percentiles
of the channel's samples, and every value of the normalized volume lies in
[0,1]. -/
theorem claim_c1 (Z C X Y : ℕ) (vol : Arr4) (percs : List (ℚ × ℚ)) (c : ℕ)
    (hc : c < C) (hlen : C ≤ percs.length)
    (hwin : channelVmin Z X Y vol percs c < channelVmax Z X Y vol percs c) :
    ∃ nv, normalize_channels_with_percentiles Z C X Y vol percs = some nv ∧
      (∀ z x y, nv z c x y =
        clip ((vol z c x y - channelVmin Z X Y vol percs c) /
          (channelVmax Z X Y vol percs c - channelVmin Z X Y vol percs c)) 0 1) ∧
      (∀ z c' x y, 0 ≤ nv z c' x y ∧ nv z c' x y ≤ 1) := by
  obtain ⟨s', hfold, hvol, hval⟩ :=
    normFold Z X Y percs vol (List.range C)
      { volume := vol, norm_volume := zeroArr } rfl (range_mem_lt hlen)
  refine ⟨s'.norm_volume, ?_, ?_, ?_⟩
  · unfold normalize_channels_with_percentiles normalizeRun
    rw [hfold]
    rfl
  · intro z x y
    rw [hval z c x y, if_pos (List.mem_range.mpr hc)]
    unfold chanVal channelVmin channelVmax at *
    rw [if_pos hwin]
  · intro z c' x y
    rw [hval z c' x y]
    by_cases h : c' ∈ List.range C
    · rw [if_pos h]
      simp only [chanVal]
      split
      · exact clip01_bounds _
      · norm_num
    · rw [if_neg h]
      simp [zeroArr]

theorem claim_c1_witness :
    (0 < 1 ∧ 1 ≤ ([((0:ℚ), (100:ℚ))]).length ∧
      channelVmin 1 1 2 vol01 [(0, 100)] 0 < channelVmax 1 1 2 vol01 [(0, 100)] 0) ∧
    (∃ nv, normalize_channels_with_percentiles 1 1 1 2 vol01 [(0, 100)] = some nv ∧
      (∀ z x y, nv z 0 x y =
        clip ((vol01 z 0 x y - channelVmin 1 1 2 vol01 [(0, 100)] 0) /
          (channelVmax 1 1 2 vol01 [(0, 100)] 0 - channelVmin 1 1 2 vol01 [(0, 100)] 0)) 0 1) ∧
      (∀ z c' x y, 0 ≤ nv z c' x y ∧ nv z c' x y ≤ 1)) :=
  ⟨⟨by decide, by decide, by decide⟩,
    claim_c1 1 1 1 2 vol01 [(0, 100)] 0 (by decide) (by decide) (by decide)⟩

/-- Claim C2: for every channel whose percentile window is degenerate or
inverted (vmax ≤ vmin), the normalizer sets every sample of that channel to
exactly 0 and returns normally (no exception for that condition). -/
theorem claim_c2 (Z C X Y : ℕ) (vol : Arr4) (percs : List (ℚ × ℚ)) (c : ℕ)
    (hc : c < C) (hlen : C ≤ percs.length)
    (hwin : channelVmax Z X Y vol percs c ≤ channelVmin Z X Y vol percs c) :
    ∃ nv, normalize_channels_with_percentiles Z C X Y vol percs = some nv ∧
      ∀ z x y, nv z c x y = 0 := by
  obtain ⟨s', hfold, hvol, hval⟩ :=
    normFold Z X Y percs vol (List.range C)
      { volume := vol, norm_volume := zeroArr } rfl (range_mem_lt hlen)
  refine ⟨s'.norm_volume, ?_, ?_⟩
  · unfold normalize_channels_with_percentiles normalizeRun
    rw [hfold]
    rfl
  · intro z x y
    rw [hval z c x y, if_pos (List.mem_range.mpr hc)]
    unfold chanVal channelVmin channelVmax at *
    rw [if_neg (not_lt.mpr hwin)]

theorem claim_c2_witness :
    (0 < 1 ∧ 1 ≤ ([((1:ℚ), (99:ℚ))]).length ∧
      channelVmax 1 1 2 vol5const [(1, 99)] 0 ≤ channelVmin 1 1 2 vol5const [(1, 99)] 0) ∧
    (∃ nv, normalize_channels_with_percentiles 1 1 1 2 vol5const [(1, 99)] = some nv ∧
      ∀ z x y, nv z 0 x y = 0) :=
  ⟨⟨by decide, by decide, by decide⟩,
    claim_c2 1 1 1 2 vol5const [(1, 99)] 0 (by decide) (by decide) (by decide)⟩

/-! ## Helper lemmas about the renderer -/

theorem addRGB_apply (rgb : Arr4) (z : ℕ) (gray : ℕ → ℕ → ℚ) (col : ℚ × ℚ × ℚ)
    (z' x y k : ℕ) :
    addRGB rgb z gray col z' x y k =
      if z' = z then rgb z' x y k + gray x y * colorComp col k
      else rgb z' x y k := by
  unfold addRGB addPlane colorComp
  by_cases hz : z' = z
  · subst hz
    rcases k with _ | _ | _ | k <;> simp
  · simp [hz]

theorem renderChanStep_oob (C : ℕ) (vis : List Bool) (z : ℕ) (s : RenderState)
    (p : ℕ × (ℚ × ℚ × ℚ)) (h : vis[p.1]? = none) :
    renderChanStep C vis z s p = none := by
  unfold renderChanStep
  rw [h]

theorem renderChanStep_vis (C : ℕ) (vis : List Bool) (z : ℕ) (s : RenderState)
    (p : ℕ × (ℚ × ℚ × ℚ)) (h : vis[p.1]? = some true) (hC : p.1 < C) :
    renderChanStep C vis z s p = some
      { volume := s.volume
        rgb_stack := addRGB s.rgb_stack z (fun x y => s.volume z p.1 x y) p.2 } := by
  unfold renderChanStep
  rw [h]
  simp [hC]

theorem renderChanStep_vis_oob (C : ℕ) (vis : List Bool) (z : ℕ) (s : RenderState)
    (p : ℕ × (ℚ × ℚ × ℚ)) (h : vis[p.1]? = some true) (hC : ¬ p.1 < C) :
    renderChanStep C vis z s p = none := by
  unfold renderChanStep
  rw [h]
  simp [hC]

theorem renderChanStep_invis (C : ℕ) (vis : List Bool) (z : ℕ) (s : RenderState)
    (p : ℕ × (ℚ × ℚ × ℚ)) (h : vis[p.1]? = some false) :
    renderChanStep C vis z s p = some s := by
  unfold renderChanStep
  rw [h]
  rfl

theorem renderChanStep_spec (C : ℕ) (vis : List Bool) (z : ℕ) (s : RenderState)
    (p : ℕ × (ℚ × ℚ × ℚ)) (hp : p.1 < vis.length) (hpC : p.1 < C) :
    ∃ s1, renderChanStep C vis z s p = some s1 ∧ s1.volume = s.volume ∧
      ∀ z' x y k, s1.rgb_stack z' x y k =
        if z' = z then s.rgb_stack z' x y k + chanContrib s.volume vis z x y k p
        else s.rgb_stack z' x y k := by
  have h1 : vis[p.1]? = some vis[p.1] := List.getElem?_eq_getElem hp
  cases hv : vis[p.1] with
  | true =>
    rw [renderChanStep_vis C vis z s p (by rw [h1, hv]) hpC]
    refine ⟨_, rfl, rfl, ?_⟩
    intro z' x y k
    show addRGB s.rgb_stack z (fun x y => s.volume z p.1 x y) p.2 z' x y k = _
    rw [addRGB_apply]
    simp [chanContrib, h1, hv]
  | false =>
    rw [renderChanStep_invis C vis z s p (by rw [h1, hv])]
    refine ⟨s, rfl, rfl, ?_⟩
    intro z' x y k
    simp [chanContrib, h1, hv]

theorem renderChanFold (C : ℕ) (vis : List Bool) (z : ℕ) (vol : Arr4) :
    ∀ (ps : List (ℕ × (ℚ × ℚ × ℚ))) (s : RenderState), s.volume = vol →
      (∀ p ∈ ps, p.1 < vis.length ∧ p.1 < C) →
      ∃ s', List.foldlM (renderChanStep C vis z) s ps = some s' ∧ s'.volume = vol ∧
        ∀ z' x y k, s'.rgb_stack z' x y k =
          if z' = z then
            s.rgb_stack z' x y k + (ps.map (chanContrib vol vis z x y k)).sum
          else s.rgb_stack z' x y k := by
  intro ps
  induction ps with
  | nil =>
    intro s hs _
    refine ⟨s, rfl, hs, ?_⟩
    intro z' x y k
    simp
  | cons p ps ih =>
    intro s hs hmem
    have hp := hmem p (List.mem_cons_self p ps)
    obtain ⟨s1, hstep, hvol1, hval1⟩ := renderChanStep_spec C vis z s p hp.1 hp.2
    obtain ⟨s', hfold, hvol', hval'⟩ :=
      ih s1 (hvol1.trans hs) (fun q hq => hmem q (List.mem_cons_of_mem p hq))
    refine ⟨s', ?_, hvol', ?_⟩
    · rw [List.foldlM_cons, hstep]
      exact hfold
    · intro z' x y k
      rw [hval' z' x y k]
      by_cases hz : z' = z
      · subst hz
        rw [if_pos rfl, if_pos rfl, hval1, if_pos rfl, hs]
        rw [List.map_cons, List.sum_cons, add_assoc]
      · rw [if_neg hz, if_neg hz, hval1, if_neg hz]

theorem renderZStep_spec (C : ℕ) (colors : List (ℚ × ℚ × ℚ)) (vis : List Bool)
    (vol : Arr4) (s : RenderState) (z : ℕ) (hs : s.volume = vol)
    (henum : ∀ p ∈ colors.enum, p.1 < vis.length ∧ p.1 < C) :
    ∃ s', renderZStep C colors vis s z = some s' ∧ s'.volume = vol ∧
      ∀ z' x y k, s'.rgb_stack z' x y k =
        if z' = z then clip (s.rgb_stack z' x y k + sliceSum vol vis colors z x y k) 0 1
        else s.rgb_stack z' x y k := by
  obtain ⟨s1, hfold, hvol1, hval1⟩ := renderChanFold C vis z vol colors.enum s hs henum
  refine ⟨{ volume := s1.volume, rgb_stack := clipSlice s1.rgb_stack z }, ?_, hvol1, ?_⟩
  · unfold renderZStep
    rw [hfold]
    rfl
  · intro z' x y k
    show clipSlice s1.rgb_stack z z' x y k = _
    unfold clipSlice
    by_cases hz : z' = z
    · subst hz
      rw [if_pos rfl, if_pos rfl, hval1, if_pos rfl]
      rfl
    · rw [if_neg hz, if_neg hz, hval1, if_neg hz]

theorem renderZFold (C : ℕ) (colors : List (ℚ × ℚ × ℚ)) (vis : List Bool)
    (vol : Arr4)
    (henum : ∀ p ∈ colors.enum, p.1 < vis.length ∧ p.1 < C) :
    ∀ (zs : List ℕ) (s : RenderState), s.volume = vol → zs.Nodup →
      ∃ s', List.foldlM (renderZStep C colors vis) s zs = some s' ∧ s'.volume = vol ∧
        ∀ z' x y k, s'.rgb_stack z' x y k =
          if z' ∈ zs then
            clip (s.rgb_stack z' x y k + sliceSum vol vis colors z' x y k) 0 1
          else s.rgb_stack z' x y k := by
  intro zs
  induction zs with
  | nil =>
    intro s hs _
    refine ⟨s, rfl, hs, ?_⟩
    intro z' x y k
    simp
  | cons z0 zs ih =>
    intro s hs hnd
    have hz0 : z0 ∉ zs := (List.nodup_cons.mp hnd).1
    obtain ⟨s1, hstep, hvol1, hval1⟩ := renderZStep_spec C colors vis vol s z0 hs henum
    obtain ⟨s', hfold, hvol', hval'⟩ := ih s1 hvol1 (List.nodup_cons.mp hnd).2
    refine ⟨s', ?_, hvol', ?_⟩
    · rw [List.foldlM_cons, hstep]
      exact hfold
    · intro z' x y k
      rw [hval' z' x y k]
      by_cases hin : z' ∈ zs
      · rw [if_pos hin, if_pos (List.mem_cons_of_mem z0 hin)]
        have hne : z' ≠ z0 := fun h => hz0 (h ▸ hin)
        rw [hval1, if_neg hne]
      · rw [if_neg hin, hval1]
        by_cases hez : z' = z0
        · subst hez
          rw [if_pos rfl, if_pos (List.mem_cons_self z' zs)]
        · rw [if_neg hez, if_neg (by simp [hez, hin])]

theorem enumFrom_fst_lt {α : Type} :
    ∀ (l : List α) (i : ℕ) (p : ℕ × α), p ∈ List.enumFrom i l → p.1 < i + l.length := by
  intro l
  induction l with
  | nil => intro i p hp; simp at hp
  | cons a l ih =>
    intro i p hp
    rcases List.mem_cons.mp hp with h | h
    · subst h
      simp
    · have := ih (i + 1) p h
      simp at this ⊢
      omega

theorem enum_fst_lt {α : Type} (l : List α) (p : ℕ × α) (hp : p ∈ l.enum) :
    p.1 < l.length := by
  have := enumFrom_fst_lt l 0 p hp
  simpa using this

theorem enumFrom_map_sum (f : ℕ × (ℚ × ℚ × ℚ) → ℚ) :
    ∀ (l : List (ℚ × ℚ × ℚ)) (i : ℕ),
      ((List.enumFrom i l).map f).sum =
        ∑ j ∈ Finset.range l.length, f (i + j, l.getD j (0, 0, 0)) := by
  intro l
  induction l with
  | nil => intro i; simp
  | cons a l ih =>
    intro i
    rw [List.enumFrom_cons, List.map_cons, List.sum_cons, ih (i + 1)]
    rw [List.length_cons, Finset.sum_range_succ']
    have h0 : (a :: l).getD 0 (0, 0, 0) = a := rfl
    rw [h0, Nat.add_zero, add_comm]
    congr 1
    refine Finset.sum_congr rfl ?_
    intro j hj
    have h1 : (a :: l).getD (j + 1) (0, 0, 0) = l.getD j (0, 0, 0) := rfl
    have h2 : i + (j + 1) = i + 1 + j := by omega
    rw [h1, h2]

theorem sliceSum_eq_finsum (vol : Arr4) (vis : List Bool)
    (colors : List (ℚ × ℚ × ℚ)) (z x y k : ℕ) :
    sliceSum vol vis colors z x y k =
      ∑ c ∈ Finset.range colors.length,
        (if vis.getD c false = true then
          vol z c x y * colorComp (colors.getD c (0, 0, 0)) k else 0) := by
  unfold sliceSum
  have : colors.enum = List.enumFrom 0 colors := rfl
  rw [this, enumFrom_map_sum]
  refine Finset.sum_congr rfl ?_
  intro j hj
  simp [chanContrib]

/-- Claim C3: with per-channel colours and visibility flags of length C,
render returns an RGBStack whose every sample at slice z is
min(1, max(0, sum over visible channels of value*colour)), the clamp being
applied per slice after all visible channels are accumulated, so every
output value lies in [0,1]. -/
theorem claim_c3 (Z C X Y : ℕ) (vol : Arr4) (colors : List (ℚ × ℚ × ℚ))
    (vis : List Bool) (hcol : colors.length = C) (hvis : vis.length = C) :
    ∃ rgb, multichannel_to_rgb_stack Z C X Y vol colors vis = some rgb ∧
      (∀ z, z < Z → ∀ x y k, rgb z x y k =
        min 1 (max 0 (∑ c ∈ Finset.range C,
          if vis.getD c false = true then
            vol z c x y * colorComp (colors.getD c (0, 0, 0)) k else 0))) ∧
      (∀ z x y k, 0 ≤ rgb z x y k ∧ rgb z x y k ≤ 1) := by
  have henum : ∀ p ∈ colors.enum, p.1 < vis.length ∧ p.1 < C := by
    intro p hp
    have := enum_fst_lt colors p hp
    omega
  obtain ⟨s', hfold, hvol', hval'⟩ :=
    renderZFold C colors vis vol henum (List.range Z)
      { volume := vol, rgb_stack := zeroArr } rfl (List.nodup_range Z)
  refine ⟨s'.rgb_stack, ?_, ?_, ?_⟩
  · unfold multichannel_to_rgb_stack renderRun
    rw [hfold]
    rfl
  · intro z hz x y k
    rw [hval' z x y k, if_pos (List.mem_range.mpr hz)]
    show clip (zeroArr z x y k + sliceSum vol vis colors z x y k) 0 1 = _
    rw [show zeroArr z x y k = 0 from rfl, zero_add]
    rw [sliceSum_eq_finsum, hcol]
    unfold clip
    rw [min_comm, max_comm]
  · intro z x y k
    rw [hval' z x y k]
    by_cases h : z ∈ List.range Z
    · rw [if_pos h]
      exact clip01_bounds _
    · rw [if_neg h]
      simp [zeroArr]

theorem claim_c3_witness :
    (([((1:ℚ), (0:ℚ), (0:ℚ))]).length = 1 ∧ ([true]).length = 1) ∧
    (∃ rgb, multichannel_to_rgb_stack 1 1 1 1 vol01 [(1, 0, 0)] [true] = some rgb ∧
      (∀ z, z < 1 → ∀ x y k, rgb z x y k =
        min 1 (max 0 (∑ c ∈ Finset.range 1,
          if ([true]).getD c false = true then
            vol01 z c x y * colorComp (([((1:ℚ), (0:ℚ), (0:ℚ))]).getD c (0, 0, 0)) k
          else 0))) ∧
      (∀ z x y k, 0 ≤ rgb z x y k ∧ rgb z x y k ≤ 1)) :=
  ⟨⟨by decide, by decide⟩,
    claim_c3 1 1 1 1 vol01 [(1, 0, 0)] [true] (by decide) (by decide)⟩

/-! ## Helper lemmas for channel-visibility independence -/

theorem c7ChanFold (C : ℕ) (vis : List Bool) (z : ℕ) (vol1 vol2 : Arr4)
    (hdata : ∀ c, vis.getD c false = true → ∀ zz x y, vol1 zz c x y = vol2 zz c x y) :
    ∀ (l1 l2 : List (ℚ × ℚ × ℚ)) (i : ℕ) (s1 s2 : RenderState),
      l1.length = l2.length →
      (∀ j, vis.getD (i + j) false = true → l1.getD j (0, 0, 0) = l2.getD j (0, 0, 0)) →
      s1.volume = vol1 → s2.volume = vol2 → s1.rgb_stack = s2.rgb_stack →
      (List.foldlM (renderChanStep C vis z) s1 (List.enumFrom i l1) = none ∧
        List.foldlM (renderChanStep C vis z) s2 (List.enumFrom i l2) = none) ∨
      (∃ t1 t2,
        List.foldlM (renderChanStep C vis z) s1 (List.enumFrom i l1) = some t1 ∧
        List.foldlM (renderChanStep C vis z) s2 (List.enumFrom i l2) = some t2 ∧
        t1.volume = vol1 ∧ t2.volume = vol2 ∧ t1.rgb_stack = t2.rgb_stack) := by
  intro l1
  induction l1 with
  | nil =>
    intro l2 i s1 s2 hlen _ hv1 hv2 hrgb
    have h2 : l2 = [] := List.length_eq_zero.mp hlen.symm
    subst h2
    exact Or.inr ⟨s1, s2, rfl, rfl, hv1, hv2, hrgb⟩
  | cons a1 l1 ih =>
    intro l2 i s1 s2 hlen hpair hv1 hv2 hrgb
    cases l2 with
    | nil => simp at hlen
    | cons a2 l2 =>
      have hlen' : l1.length = l2.length := by
        simpa using hlen
      have hshift : ∀ j, vis.getD (i + 1 + j) false = true →
          l1.getD j (0, 0, 0) = l2.getD j (0, 0, 0) := by
        intro j hj
        have h := hpair (j + 1) (by rw [show i + (j + 1) = i + 1 + j by omega]; exact hj)
        exact h
      rw [List.enumFrom_cons, List.enumFrom_cons, List.foldlM_cons, List.foldlM_cons]
      cases hvi : vis[i]? with
      | none =>
        left
        rw [renderChanStep_oob C vis z s1 (i, a1) hvi,
          renderChanStep_oob C vis z s2 (i, a2) hvi]
        exact ⟨rfl, rfl⟩
      | some v =>
        cases v with
        | true =>
          have hgd : vis.getD i false = true := by
            rw [List.getD_eq_getElem?_getD, hvi]
            rfl
          have ha : a1 = a2 := hpair 0 (by rw [Nat.add_zero]; exact hgd)
          by_cases hC : i < C
          · rw [renderChanStep_vis C vis z s1 (i, a1) hvi hC,
              renderChanStep_vis C vis z s2 (i, a2) hvi hC]
            have hgray : (fun x y => s1.volume z i x y) = fun x y => s2.volume z i x y := by
              funext xx yy
              rw [hv1, hv2]
              exact hdata i hgd z xx yy
            have hrgb' :
                addRGB s1.rgb_stack z (fun x y => s1.volume z (i, a1).1 x y) (i, a1).2 =
                  addRGB s2.rgb_stack z (fun x y => s2.volume z (i, a2).1 x y) (i, a2).2 := by
              show addRGB s1.rgb_stack z (fun x y => s1.volume z i x y) a1 =
                addRGB s2.rgb_stack z (fun x y => s2.volume z i x y) a2
              rw [hrgb, ha, hgray]
            exact ih l2 (i + 1) _ _ hlen' hshift hv1 hv2 hrgb'
          · left
            rw [renderChanStep_vis_oob C vis z s1 (i, a1) hvi hC,
              renderChanStep_vis_oob C vis z s2 (i, a2) hvi hC]
            exact ⟨rfl, rfl⟩
        | false =>
          rw [renderChanStep_invis C vis z s1 (i, a1) hvi,
            renderChanStep_invis C vis z s2 (i, a2) hvi]
          exact ih l2 (i + 1) s1 s2 hlen' hshift hv1 hv2 hrgb

theorem c7ZFold (C : ℕ) (colors1 colors2 : List (ℚ × ℚ × ℚ)) (vis : List Bool)
    (vol1 vol2 : Arr4)
    (hdata : ∀ c, vis.getD c false = true → ∀ zz x y, vol1 zz c x y = vol2 zz c x y)
    (hlen : colors1.length = colors2.length)
    (hcol : ∀ c, vis.getD c false = true →
      colors1.getD c (0, 0, 0) = colors2.getD c (0, 0, 0)) :
    ∀ (zs : List ℕ) (s1 s2 : RenderState), s1.volume = vol1 → s2.volume = vol2 →
      s1.rgb_stack = s2.rgb_stack →
      (List.foldlM (renderZStep C colors1 vis) s1 zs = none ∧
        List.foldlM (renderZStep C colors2 vis) s2 zs = none) ∨
      (∃ t1 t2,
        List.foldlM (renderZStep C colors1 vis) s1 zs = some t1 ∧
        List.foldlM (renderZStep C colors2 vis) s2 zs = some t2 ∧
        t1.volume = vol1 ∧ t2.volume = vol2 ∧ t1.rgb_stack = t2.rgb_stack) := by
  intro zs
  induction zs with
  | nil =>
    intro s1 s2 hv1 hv2 hrgb
    exact Or.inr ⟨s1, s2, rfl, rfl, hv1, hv2, hrgb⟩
  | cons z0 zs ih =>
    intro s1 s2 hv1 hv2 hrgb
    have hpair : ∀ j, vis.getD (0 + j) false = true →
        colors1.getD j (0, 0, 0) = colors2.getD j (0, 0, 0) := by
      intro j hj
      exact hcol j (by rwa [Nat.zero_add] at hj)
    have hchan := c7ChanFold C vis z0 vol1 vol2 hdata colors1 colors2 0 s1 s2
      hlen hpair hv1 hv2 hrgb
    rw [List.foldlM_cons, List.foldlM_cons]
    rcases hchan with ⟨hn1, hn2⟩ | ⟨t1, t2, h1, h2, tv1, tv2, trgb⟩
    · left
      have e1 : renderZStep C colors1 vis s1 z0 = none := by
        unfold renderZStep
        rw [show colors1.enum = List.enumFrom 0 colors1 from rfl, hn1]
        rfl
      have e2 : renderZStep C colors2 vis s2 z0 = none := by
        unfold renderZStep
        rw [show colors2.enum = List.enumFrom 0 colors2 from rfl, hn2]
        rfl
      rw [e1, e2]
      exact ⟨rfl, rfl⟩
    · have e1 : renderZStep C colors1 vis s1 z0 =
          some { volume := t1.volume, rgb_stack := clipSlice t1.rgb_stack z0 } := by
        unfold renderZStep
        rw [show colors1.enum = List.enumFrom 0 colors1 from rfl, h1]
        rfl
      have e2 : renderZStep C colors2 vis s2 z0 =
          some { volume := t2.volume, rgb_stack := clipSlice t2.rgb_stack z0 } := by
        unfold renderZStep
        rw [show colors2.enum = List.enumFrom 0 colors2 from rfl, h2]
        rfl
      rw [e1, e2]
      exact ih _ _ tv1 tv2 (by rw [trgb])

theorem invisChanFold (C : ℕ) (vis : List Bool) (z : ℕ)
    (hall : ∀ c, vis.getD c false = false) :
    ∀ (ps : List (ℕ × (ℚ × ℚ × ℚ))) (s : RenderState),
      (∀ p ∈ ps, p.1 < vis.length) →
      List.foldlM (renderChanStep C vis z) s ps = some s := by
  intro ps
  induction ps with
  | nil => intro s _; rfl
  | cons p ps ih =>
    intro s hmem
    have hp : p.1 < vis.length := hmem p (List.mem_cons_self p ps)
    have hfalse : vis[p.1]? = some false := by
      have h := hall p.1
      rw [List.getD_eq_getElem?_getD, List.getElem?_eq_getElem hp] at h
      rw [List.getElem?_eq_getElem hp]
      simpa using h
    rw [List.foldlM_cons, renderChanStep_invis C vis z s p hfalse]
    exact ih s (fun q hq => hmem q (List.mem_cons_of_mem p hq))

theorem clipSlice_zero (z : ℕ) : clipSlice zeroArr z = zeroArr := by
  funext z' x y k
  unfold clipSlice zeroArr
  by_cases h : z' = z
  · rw [if_pos h]
    norm_num [clip]
  · rw [if_neg h]

theorem invisZFold (C : ℕ) (colors : List (ℚ × ℚ × ℚ)) (vis : List Bool)
    (hall : ∀ c, vis.getD c false = false)
    (henum : ∀ p ∈ colors.enum, p.1 < vis.length) :
    ∀ (zs : List ℕ) (s : RenderState), s.rgb_stack = zeroArr →
      ∃ s', List.foldlM (renderZStep C colors vis) s zs = some s' ∧
        s'.rgb_stack = zeroArr := by
  intro zs
  induction zs with
  | nil =>
    intro s hs
    exact ⟨s, rfl, hs⟩
  | cons z0 zs ih =>
    intro s hs
    have hzstep : renderZStep C colors vis s z0 =
        some { volume := s.volume, rgb_stack := clipSlice s.rgb_stack z0 } := by
      unfold renderZStep
      rw [invisChanFold C vis z0 hall colors.enum s henum]
      rfl
    rw [List.foldlM_cons, hzstep]
    exact ih { volume := s.volume, rgb_stack := clipSlice s.rgb_stack z0 }
      (by show clipSlice s.rgb_stack z0 = zeroArr; rw [hs, clipSlice_zero])

/-- Claim C7: the render output is independent of invisible channels — two
(normalizedVolume, colors) inputs that agree on every visible channel's data
and colour yield identical RGBStacks — and when every channel is invisible
the RGBStack is all zeros. -/
theorem claim_c7 (Z C X Y : ℕ) (vol1 vol2 : Arr4)
    (colors1 colors2 : List (ℚ × ℚ × ℚ)) (vis : List Bool)
    (hlen : colors1.length = colors2.length)
    (hdata : ∀ c, vis.getD c false = true → ∀ zz x y, vol1 zz c x y = vol2 zz c x y)
    (hcol : ∀ c, vis.getD c false = true →
      colors1.getD c (0, 0, 0) = colors2.getD c (0, 0, 0)) :
    multichannel_to_rgb_stack Z C X Y vol1 colors1 vis =
      multichannel_to_rgb_stack Z C X Y vol2 colors2 vis ∧
    ((∀ c, vis.getD c false = false) → colors1.length ≤ vis.length →
      multichannel_to_rgb_stack Z C X Y vol1 colors1 vis = some zeroArr) := by
  constructor
  · have h := c7ZFold C colors1 colors2 vis vol1 vol2 hdata hlen hcol (List.range Z)
      { volume := vol1, rgb_stack := zeroArr } { volume := vol2, rgb_stack := zeroArr }
      rfl rfl rfl
    unfold multichannel_to_rgb_stack renderRun
    rcases h with ⟨h1, h2⟩ | ⟨t1, t2, h1, h2, _, _, trgb⟩
    · rw [h1, h2]
    · rw [h1, h2]
      simpa using trgb
  · intro hall hlenvis
    have henum : ∀ p ∈ colors1.enum, p.1 < vis.length :=
      fun p hp => lt_of_lt_of_le (enum_fst_lt colors1 p hp) hlenvis
    obtain ⟨s', hfold, hrgb⟩ :=
      invisZFold C colors1 vis hall henum (List.range Z)
        { volume := vol1, rgb_stack := zeroArr } rfl
    unfold multichannel_to_rgb_stack renderRun
    rw [hfold]
    rw [show (some s' : Option RenderState).map RenderState.rgb_stack =
      some s'.rgb_stack from rfl, hrgb]

theorem claim_c7_witness :
    (([((1:ℚ), (0:ℚ), (0:ℚ))]).length = ([((1:ℚ), (0:ℚ), (0:ℚ))]).length ∧
      (∀ c, ([false]).getD c false = false) ∧ ([((1:ℚ), (0:ℚ), (0:ℚ))]).length ≤ ([false]).length) ∧
    (multichannel_to_rgb_stack 1 1 1 1 vol01 [(1, 0, 0)] [false] =
      multichannel_to_rgb_stack 1 1 1 1 vol01 [(1, 0, 0)] [false] ∧
      ((∀ c, ([false]).getD c false = false) → ([((1:ℚ), (0:ℚ), (0:ℚ))]).length ≤ ([false]).length →
        multichannel_to_rgb_stack 1 1 1 1 vol01 [(1, 0, 0)] [false] = some zeroArr)) :=
  ⟨⟨rfl, fun c => by cases c <;> rfl, by decide⟩,
    claim_c7 1 1 1 1 vol01 vol01 [(1, 0, 0)] [(1, 0, 0)] [false] rfl
      (fun c _ => fun zz x y => rfl) (fun c _ => rfl)⟩

/-! ## Non-mutation of stage inputs -/

theorem normStep_volume (Z X Y : ℕ) (percs : List (ℚ × ℚ)) (s : NormState)
    (c : ℕ) (s1 : NormState) (h : normStep Z X Y percs s c = some s1) :
    s1.volume = s.volume := by
  unfold normStep at h
  cases hc : percs[c]? with
  | none => rw [hc] at h; cases h
  | some pc => rw [hc] at h; cases h; rfl

theorem normFoldM_volume (Z X Y : ℕ) (percs : List (ℚ × ℚ)) :
    ∀ (cs : List ℕ) (s s' : NormState),
      List.foldlM (normStep Z X Y percs) s cs = some s' → s'.volume = s.volume := by
  intro cs
  induction cs with
  | nil =>
    intro s s' h
    cases h
    rfl
  | cons c cs ih =>
    intro s s' h
    rw [List.foldlM_cons] at h
    cases hstep : normStep Z X Y percs s c with
    | none => rw [hstep] at h; cases h
    | some s1 =>
      rw [hstep] at h
      exact (ih s1 s' h).trans (normStep_volume Z X Y percs s c s1 hstep)

theorem renderChanStep_volume (C : ℕ) (vis : List Bool) (z : ℕ) (s : RenderState)
    (p : ℕ × (ℚ × ℚ × ℚ)) (s1 : RenderState)
    (h : renderChanStep C vis z s p = some s1) : s1.volume = s.volume := by
  cases hv : vis[p.1]? with
  | none => rw [renderChanStep_oob C vis z s p hv] at h; cases h
  | some v =>
    cases v with
    | true =>
      by_cases hC : p.1 < C
      · rw [renderChanStep_vis C vis z s p hv hC] at h
        cases h
        rfl
      · rw [renderChanStep_vis_oob C vis z s p hv hC] at h
        cases h
    | false =>
      rw [renderChanStep_invis C vis z s p hv] at h
      cases h
      rfl

theorem renderChanFoldM_volume (C : ℕ) (vis : List Bool) (z : ℕ) :
    ∀ (ps : List (ℕ × (ℚ × ℚ × ℚ))) (s s' : RenderState),
      List.foldlM (renderChanStep C vis z) s ps = some s' → s'.volume = s.volume := by
  intro ps
  induction ps with
  | nil =>
    intro s s' h
    cases h
    rfl
  | cons p ps ih =>
    intro s s' h
    rw [List.foldlM_cons] at h
    cases hstep : renderChanStep C vis z s p with
    | none => rw [hstep] at h; cases h
    | some s1 =>
      rw [hstep] at h
      exact (ih s1 s' h).trans (renderChanStep_volume C vis z s p s1 hstep)

theorem renderZStep_volume (C : ℕ) (colors : List (ℚ × ℚ × ℚ)) (vis : List Bool)
    (s : RenderState) (z : ℕ) (s' : RenderState)
    (h : renderZStep C colors vis s z = some s') : s'.volume = s.volume := by
  unfold renderZStep at h
  cases hfold : List.foldlM (renderChanStep C vis z) s colors.enum with
  | none => rw [hfold] at h; cases h
  | some t =>
    rw [hfold] at h
    cases h
    exact renderChanFoldM_volume C vis z colors.enum s t hfold

theorem renderZFoldM_volume (C : ℕ) (colors : List (ℚ × ℚ × ℚ)) (vis : List Bool) :
    ∀ (zs : List ℕ) (s s' : RenderState),
      List.foldlM (renderZStep C colors vis) s zs = some s' → s'.volume = s.volume := by
  intro zs
  induction zs with
  | nil =>
    intro s s' h
    cases h
    rfl
  | cons z0 zs ih =>
    intro s s' h
    rw [List.foldlM_cons] at h
    cases hstep : renderZStep C colors vis s z0 with
    | none => rw [hstep] at h; cases h
    | some s1 =>
      rw [hstep] at h
      exact (ih s1 s' h).trans (renderZStep_volume C colors vis s z0 s1 hstep)

/-- Claim C9: neither transform stage mutates its input.  In the embedding
each stage's loop runs over a state holding the input array and the output
buffer (which starts as a fresh zero array); whenever a run completes, the
input component is exactly the volume that was passed in: the loops only
ever wrote to the output buffer. -/
theorem claim_c9 (Z C X Y : ℕ) (vol : Arr4) (percs : List (ℚ × ℚ))
    (colors : List (ℚ × ℚ × ℚ)) (vis : List Bool) :
    (∀ s', normalizeRun Z C X Y vol percs = some s' → s'.volume = vol) ∧
    (∀ s', renderRun Z C vol colors vis = some s' → s'.volume = vol) := by
  constructor
  · intro s' h
    exact normFoldM_volume Z X Y percs (List.range C) _ s' h
  · intro s' h
    exact renderZFoldM_volume C colors vis (List.range Z) _ s' h

theorem claim_c9_witness :
    ({ volume := zeroArr, norm_volume := zeroArr } : NormState).volume = zeroArr ∧
    ({ volume := zeroArr, rgb_stack := zeroArr } : RenderState).volume = zeroArr :=
  ⟨(claim_c9 0 0 0 0 zeroArr [] [] []).1 { volume := zeroArr, norm_volume := zeroArr } rfl,
    (claim_c9 0 0 0 0 zeroArr [] [] []).2 { volume := zeroArr, rgb_stack := zeroArr } rfl⟩

/-! ## Shape resolution -/

theorem resolveShape_len4 (a : NDArr) (h4 : a.shape.length = 4) :
    resolveShape a = Except.ok a := by
  unfold resolveShape
  rw [if_neg (by omega), if_neg (by omega)]

theorem resolveShape_5collapse (a : NDArr) (h5 : a.shape.length = 5)
    (hh : a.shape.headD 0 = 1) : resolveShape a = Except.ok (collapse0 a) := by
  unfold resolveShape
  rw [if_pos h5, if_pos hh, if_neg (by simp [collapse0, List.length_tail, h5])]

theorem resolveShape_5bad (a : NDArr) (h5 : a.shape.length = 5)
    (hh : a.shape.headD 0 ≠ 1) :
    resolveShape a = Except.error (ShapeErr.unsupportedShape a.shape) := by
  unfold resolveShape
  rw [if_pos h5, if_neg hh]

theorem resolveShape_other (a : NDArr) (h4 : a.shape.length ≠ 4)
    (h5 : a.shape.length ≠ 5) :
    resolveShape a = Except.error (ShapeErr.unsupportedShape a.shape) := by
  unfold resolveShape
  rw [if_neg h5, if_pos h4]

/-- Claim C4: the shape-resolution step fails with UnsupportedShape (before
any numeric work, producing no result volume) for every 5-D input whose
axis-0 size is not 1 and for every input whose dimensionality is neither 4
nor 5; a 5-D input with axis-0 size 1 is collapsed to the 4-D volume, and a
4-D input is accepted unchanged. -/
theorem claim_c4 (a : NDArr) :
    (a.shape.length = 5 → a.shape.headD 0 ≠ 1 →
      resolveShape a = Except.error (ShapeErr.unsupportedShape a.shape)) ∧
    (a.shape.length ≠ 4 → a.shape.length ≠ 5 →
      resolveShape a = Except.error (ShapeErr.unsupportedShape a.shape)) ∧
    (a.shape.length = 5 → a.shape.headD 0 = 1 →
      resolveShape a = Except.ok (collapse0 a)) ∧
    (a.shape.length = 4 → resolveShape a = Except.ok a) :=
  ⟨fun h5 hh => resolveShape_5bad a h5 hh,
    fun h4 h5 => resolveShape_other a h4 h5,
    fun h5 hh => resolveShape_5collapse a h5 hh,
    fun h4 => resolveShape_len4 a h4⟩

theorem claim_c4_witness :
    resolveShape arr5bad = Except.error (ShapeErr.unsupportedShape [2, 2, 2, 2, 2]) ∧
    resolveShape arr3d = Except.error (ShapeErr.unsupportedShape [2, 2, 2]) ∧
    resolveShape arr5good = Except.ok (collapse0 arr5good) ∧
    resolveShape arr4ok = Except.ok arr4ok :=
  ⟨(claim_c4 arr5bad).1 (by decide) (by decide),
    (claim_c4 arr3d).2.1 (by decide) (by decide),
    (claim_c4 arr5good).2.2.1 (by decide) (by decide),
    (claim_c4 arr4ok).2.2.2 (by decide)⟩

/-- Claim C5: prepending a trivial size-1 leading axis to a 4-D volume does
not change the pipeline's RGBStack output (collapse idempotence). -/
theorem claim_c5 (a : NDArr) (percs : List (ℚ × ℚ)) (colors : List (ℚ × ℚ × ℚ))
    (vis : List Bool) (h4 : a.shape.length = 4) :
    pipeline (prepend1 a) percs colors vis = pipeline a percs colors vis := by
  have hcol : collapse0 (prepend1 a) = a := rfl
  have h1 : resolveShape (prepend1 a) = Except.ok a := by
    have h := resolveShape_5collapse (prepend1 a)
      (by simp [prepend1, h4]) (by simp [prepend1])
    rw [h, hcol]
  have h2 : resolveShape a = Except.ok a := resolveShape_len4 a h4
  unfold pipeline
  rw [h1, h2]

theorem claim_c5_witness :
    arr4ok.shape.length = 4 ∧
    pipeline (prepend1 arr4ok) [] [] [] = pipeline arr4ok [] [] [] :=
  ⟨by decide, claim_c5 arr4ok [] [] [] (by decide)⟩

/-! ## Parameter-length mismatch behaviour -/

theorem normFold_fail (Z X Y : ℕ) (percs : List (ℚ × ℚ)) :
    ∀ (cs : List ℕ) (s : NormState), (∃ c ∈ cs, percs.length ≤ c) →
      List.foldlM (normStep Z X Y percs) s cs = none := by
  intro cs
  induction cs with
  | nil => intro s h; simp at h
  | cons c cs ih =>
    intro s h
    rw [List.foldlM_cons]
    by_cases hc : percs.length ≤ c
    · have hnone : percs[c]? = none := List.getElem?_eq_none hc
      have hstep : normStep Z X Y percs s c = none := by
        unfold normStep
        rw [hnone]
      rw [hstep]
      rfl
    · push_neg at hc
      obtain ⟨s1, hstep, _, _⟩ := normStep_spec Z X Y percs s c hc
      rw [hstep]
      show List.foldlM (normStep Z X Y percs) s1 cs = none
      apply ih
      obtain ⟨c0, hc0, hlen0⟩ := h
      rcases List.mem_cons.mp hc0 with rfl | hin
      · omega
      · exact ⟨c0, hin, hlen0⟩

theorem renderChanFold_fatal (C : ℕ) (vis : List Bool) (z : ℕ) :
    ∀ (ps : List (ℕ × (ℚ × ℚ × ℚ))) (s : RenderState),
      (∃ p ∈ ps, fatalPair C vis p) →
      List.foldlM (renderChanStep C vis z) s ps = none := by
  intro ps
  induction ps with
  | nil => intro s h; simp at h
  | cons p ps ih =>
    intro s h
    rw [List.foldlM_cons]
    by_cases hfat : fatalPair C vis p
    · rcases hfat with hn | ⟨ht, hC⟩
      · rw [renderChanStep_oob C vis z s p hn]
        rfl
      · rw [renderChanStep_vis_oob C vis z s p ht (by omega)]
        rfl
    · have htail : ∃ q ∈ ps, fatalPair C vis q := by
        obtain ⟨q, hq, hfatq⟩ := h
        rcases List.mem_cons.mp hq with rfl | hin
        · exact absurd hfatq hfat
        · exact ⟨q, hin, hfatq⟩
      cases hv : vis[p.1]? with
      | none => exact absurd (Or.inl hv) hfat
      | some v =>
        cases v with
        | false =>
          rw [renderChanStep_invis C vis z s p hv]
          exact ih s htail
        | true =>
          have hC : p.1 < C := by
            by_contra hge
            exact hfat (Or.inr ⟨hv, by omega⟩)
          rw [renderChanStep_vis C vis z s p hv hC]
          exact ih _ htail

theorem renderZStep_fail (C : ℕ) (colors : List (ℚ × ℚ × ℚ)) (vis : List Bool)
    (s : RenderState) (z : ℕ) (hlen : vis.length < colors.length) :
    renderZStep C colors vis s z = none := by
  have hi : vis.length < colors.enum.length := by
    rw [List.enum_length]
    exact hlen
  have hfail : List.foldlM (renderChanStep C vis z) s colors.enum = none := by
    apply renderChanFold_fatal C vis z colors.enum s
    refine ⟨colors.enum[vis.length], List.getElem_mem hi, Or.inl ?_⟩
    rw [List.getElem_enum]
    exact List.getElem?_eq_none (le_refl _)
  unfold renderZStep
  rw [hfail]
  rfl

theorem renderZStep_fail_chan (C : ℕ) (colors : List (ℚ × ℚ × ℚ))
    (vis : List Bool) (s : RenderState) (z : ℕ)
    (h : ∃ c, vis.getD c false = true ∧ C ≤ c ∧ c < colors.length) :
    renderZStep C colors vis s z = none := by
  obtain ⟨c, hvis, hC, hclen⟩ := h
  have hcv : c < vis.length := by
    by_contra hge
    push_neg at hge
    rw [List.getD_eq_getElem?_getD, List.getElem?_eq_none hge] at hvis
    simp at hvis
  have hsome : vis[c]? = some true := by
    rw [List.getElem?_eq_getElem hcv]
    have h' := hvis
    rw [List.getD_eq_getElem?_getD, List.getElem?_eq_getElem hcv] at h'
    simpa using h'
  have hi : c < colors.enum.length := by
    rw [List.enum_length]
    exact hclen
  have hfail : List.foldlM (renderChanStep C vis z) s colors.enum = none := by
    apply renderChanFold_fatal C vis z colors.enum s
    refine ⟨colors.enum[c], List.getElem_mem hi, Or.inr ?_⟩
    rw [List.getElem_enum]
    exact ⟨hsome, hC⟩
  unfold renderZStep
  rw [hfail]
  rfl

/-- Counterexample to claim C6 as stated: with a one-channel volume, an
empty colour list and an empty visibility list (both of length 0 ≠ C = 1),
render silently returns an output (computed from the truncated, empty
channel set) instead of signalling the mismatch; likewise normalize accepts
a percentile list that is longer than C without signalling. -/
theorem claim_c6_counterexample :
    (([] : List (ℚ × ℚ × ℚ)).length ≠ 1 ∧ ([] : List Bool).length ≠ 1 ∧
      ([((0:ℚ), (100:ℚ)), ((0:ℚ), (100:ℚ))]).length ≠ 1) ∧
    (multichannel_to_rgb_stack 1 1 1 1 vol01 [] []).isSome = true ∧
    (normalize_channels_with_percentiles 1 1 1 2 vol01
      [(0, 100), (0, 100)]).isSome = true :=
  ⟨⟨by decide, by decide, by decide⟩, by rfl, by decide⟩

/-- Claim C6, amended: a parameter-length mismatch that starves a loop
lookup is signalled as an uncaught IndexError — a percentile list shorter
than C aborts normalize, and when at least one slice is processed a
visibility list shorter than the colours list aborts render, as does a
visible colour index at or beyond the volume's channel count C (the
volume[z, c] read) — but the mismatch is NOT signalled in the remaining
cases: a colours list within both the visibility list and the channel
count renders successfully even when it is shorter than C (the trailing
channels are silently dropped), and a percentile list longer than C is
silently accepted with its extra entries ignored. -/
theorem claim_c6_amended (Z C X Y : ℕ) (vol : Arr4) (percs : List (ℚ × ℚ))
    (colors : List (ℚ × ℚ × ℚ)) (vis : List Bool) :
    (percs.length < C →
      normalize_channels_with_percentiles Z C X Y vol percs = none) ∧
    (colors.length ≤ vis.length → colors.length ≤ C →
      (multichannel_to_rgb_stack Z C X Y vol colors vis).isSome = true) ∧
    (0 < Z → vis.length < colors.length →
      multichannel_to_rgb_stack Z C X Y vol colors vis = none) ∧
    (0 < Z → (∃ c, vis.getD c false = true ∧ C ≤ c ∧ c < colors.length) →
      multichannel_to_rgb_stack Z C X Y vol colors vis = none) := by
  refine ⟨?_, ?_, ?_, ?_⟩
  · intro h
    have hfail : normalizeRun Z C X Y vol percs = none := by
      apply normFold_fail
      exact ⟨percs.length, List.mem_range.mpr h, le_refl _⟩
    unfold normalize_channels_with_percentiles
    rw [hfail]
    rfl
  · intro hle hleC
    have henum : ∀ p ∈ colors.enum, p.1 < vis.length ∧ p.1 < C := by
      intro p hp
      have := enum_fst_lt colors p hp
      omega
    obtain ⟨s', hfold, _, _⟩ :=
      renderZFold C colors vis vol henum (List.range Z)
        { volume := vol, rgb_stack := zeroArr } rfl (List.nodup_range Z)
    unfold multichannel_to_rgb_stack renderRun
    rw [hfold]
    rfl
  · intro hz hlen
    obtain ⟨n, rfl⟩ : ∃ n, Z = n + 1 := ⟨Z - 1, by omega⟩
    have hfail : renderRun (n + 1) C vol colors vis = none := by
      unfold renderRun
      rw [List.range_succ_eq_map, List.foldlM_cons]
      rw [renderZStep_fail C colors vis _ 0 hlen]
      rfl
    unfold multichannel_to_rgb_stack
    rw [hfail]
    rfl
  · intro hz hex
    obtain ⟨n, rfl⟩ : ∃ n, Z = n + 1 := ⟨Z - 1, by omega⟩
    have hfail : renderRun (n + 1) C vol colors vis = none := by
      unfold renderRun
      rw [List.range_succ_eq_map, List.foldlM_cons]
      rw [renderZStep_fail_chan C colors vis _ 0 hex]
      rfl
    unfold multichannel_to_rgb_stack
    rw [hfail]
    rfl

theorem claim_c6_amended_witness :
    (([((0:ℚ), (100:ℚ))]).length < 2 ∧
      ([((1:ℚ), (0:ℚ), (0:ℚ))]).length ≤ ([true]).length ∧
      ([((1:ℚ), (0:ℚ), (0:ℚ))]).length ≤ 1 ∧
      0 < 1 ∧ ([true]).length < ([((1:ℚ), (0:ℚ), (0:ℚ)), ((0:ℚ), (1:ℚ), (0:ℚ))]).length ∧
      (([true, true]).getD 1 false = true ∧ 1 ≤ 1 ∧
        1 < ([((1:ℚ), (0:ℚ), (0:ℚ)), ((0:ℚ), (1:ℚ), (0:ℚ))]).length)) ∧
    normalize_channels_with_percentiles 1 2 1 1 vol01 [(0, 100)] = none ∧
    (multichannel_to_rgb_stack 1 1 1 1 vol01 [(1, 0, 0)] [true]).isSome = true ∧
    multichannel_to_rgb_stack 1 1 1 1 vol01 [(1, 0, 0), (0, 1, 0)] [true] = none ∧
    multichannel_to_rgb_stack 1 1 1 1 vol01 [(1, 0, 0), (0, 1, 0)] [true, true] = none :=
  ⟨⟨by decide, by decide, by decide, by decide, by decide, by decide, by decide, by decide⟩,
    (claim_c6_amended 1 2 1 1 vol01 [(0, 100)] [(1, 0, 0)] [true]).1 (by decide),
    (claim_c6_amended 1 1 1 1 vol01 [] [(1, 0, 0)] [true]).2.1 (by decide) (by decide),
    (claim_c6_amended 1 1 1 1 vol01 [] [(1, 0, 0), (0, 1, 0)] [true]).2.2.1
      (by decide) (by decide),
    (claim_c6_amended 1 1 1 1 vol01 [] [(1, 0, 0), (0, 1, 0)] [true, true]).2.2.2
      (by decide) ⟨1, by decide, by decide, by decide⟩⟩

/-! ## Export-boundary quantization and filenames -/

/-- Counterexample to claim C8 as stated: at the attainable clamped sample
value 1/2 the code's conversion (value*255).astype(uint8) truncates to 127,
while round(value*255) clamped to [0,255] gives 128. -/
theorem claim_c8_counterexample :
    clip (1/2) 0 1 = 1/2 ∧ astype_u8 (1/2) = 127 ∧ specRoundU8 (1/2) = 128 ∧
    astype_u8 (1/2) ≠ specRoundU8 (1/2) := by decide

/-- Claim C8, amended: the export conversion of a [0,1] float sample is
truncation toward zero of value*255 — i.e. floor(value*255) on the
nonnegative clamped values, which lies in [0,255] with no explicit clamp —
not round(value*255); the filename pattern part of the claim holds:
each slice is exported as z_{index:03d}.png with the index zero-padded to
(at least) 3 digits. -/
theorem claim_c8_amended (v : ℚ) (z : ℕ) (h0 : 0 ≤ v) (h1 : v ≤ 1) :
    astype_u8 v = ⌊v * 255⌋ ∧ 0 ≤ astype_u8 v ∧ astype_u8 v ≤ 255 ∧
    slice_filename z = "z_" ++ pad3 z ++ ".png" ∧
    (pad3 z).length = max 3 (Nat.repr z).length := by
  have hnum : (0 : ℤ) ≤ (v * 255).num := by
    rw [Rat.num_nonneg]
    positivity
  have hden : (0 : ℤ) ≤ ((v * 255).den : ℤ) := Int.natCast_nonneg _
  have hfloor : astype_u8 v = ⌊v * 255⌋ := by
    unfold astype_u8
    rw [Int.tdiv_eq_ediv hnum hden, Rat.floor_def]
  refine ⟨hfloor, ?_, ?_, rfl, ?_⟩
  · rw [hfloor]
    rw [Int.le_floor]
    push_cast
    positivity
  · rw [hfloor]
    have hle : v * 255 ≤ (255 : ℚ) := by nlinarith
    calc ⌊v * 255⌋ ≤ ⌊(255 : ℚ)⌋ := Int.floor_le_floor hle
    _ = 255 := by norm_num
  · unfold pad3
    rw [String.length_append]
    have hmk : (String.mk (List.replicate (3 - (Nat.repr z).length) '0')).length =
        3 - (Nat.repr z).length := by
      show (List.replicate (3 - (Nat.repr z).length) '0').length = _
      exact List.length_replicate _ _
    rw [hmk]
    omega

theorem claim_c8_amended_witness :
    ((0 : ℚ) ≤ 1/2 ∧ (1/2 : ℚ) ≤ 1) ∧
    (astype_u8 (1/2) = ⌊(1/2 : ℚ) * 255⌋ ∧ 0 ≤ astype_u8 (1/2) ∧
      astype_u8 (1/2) ≤ 255 ∧
      slice_filename 7 = "z_" ++ pad3 7 ++ ".png" ∧
      (pad3 7).length = max 3 (Nat.repr 7).length) :=
  ⟨⟨by decide, by decide⟩, claim_c8_amended (1/2) 7 (by decide) (by decide)⟩

/-! ## Hex colour parsing -/

theorem hexDigitVal_le15 (c : Char) (d : ℕ) (h : hexDigitVal c = some d) :
    d ≤ 15 := by
  unfold hexDigitVal at h
  split_ifs at h with h1 h2 h3 <;> simp_all <;> omega

/-- Claim C10: on a 7-character string "#RRGGBB" whose six trailing
characters are hexadecimal digits, hex_to_rgb_floats returns the three
parsed byte values each divided by 255, and every returned component lies
in [0,1] (the ChannelColor precondition of the renderer). -/
theorem claim_c10 (c1 c2 c3 c4 c5 c6 : Char) (d1 d2 d3 d4 d5 d6 : ℕ)
    (e1 : hexDigitVal c1 = some d1) (e2 : hexDigitVal c2 = some d2)
    (e3 : hexDigitVal c3 = some d3) (e4 : hexDigitVal c4 = some d4)
    (e5 : hexDigitVal c5 = some d5) (e6 : hexDigitVal c6 = some d6) :
    hex_to_rgb_floats ['#', c1, c2, c3, c4, c5, c6] =
      some (((d1 * 16 + d2 : ℕ) : ℚ) / 255, ((d3 * 16 + d4 : ℕ) : ℚ) / 255,
        ((d5 * 16 + d6 : ℕ) : ℚ) / 255) ∧
    (0 ≤ ((d1 * 16 + d2 : ℕ) : ℚ) / 255 ∧ ((d1 * 16 + d2 : ℕ) : ℚ) / 255 ≤ 1) ∧
    (0 ≤ ((d3 * 16 + d4 : ℕ) : ℚ) / 255 ∧ ((d3 * 16 + d4 : ℕ) : ℚ) / 255 ≤ 1) ∧
    (0 ≤ ((d5 * 16 + d6 : ℕ) : ℚ) / 255 ∧ ((d5 * 16 + d6 : ℕ) : ℚ) / 255 ≤ 1) := by
  have bound : ∀ (da db : ℕ), da ≤ 15 → db ≤ 15 →
      0 ≤ ((da * 16 + db : ℕ) : ℚ) / 255 ∧ ((da * 16 + db : ℕ) : ℚ) / 255 ≤ 1 := by
    intro da db hda hdb
    constructor
    · positivity
    · rw [div_le_one (by norm_num)]
      have h : (da * 16 + db : ℕ) ≤ 255 := by omega
      exact_mod_cast h
  have hp1 : parseHexPair [c1, c2] = some (d1 * 16 + d2) := by
    simp [parseHexPair, e1, e2]
  have hp2 : parseHexPair [c3, c4] = some (d3 * 16 + d4) := by
    simp [parseHexPair, e3, e4]
  have hp3 : parseHexPair [c5, c6] = some (d5 * 16 + d6) := by
    simp [parseHexPair, e5, e6]
  refine ⟨?_, bound d1 d2 (hexDigitVal_le15 c1 d1 e1) (hexDigitVal_le15 c2 d2 e2),
    bound d3 d4 (hexDigitVal_le15 c3 d3 e3) (hexDigitVal_le15 c4 d4 e4),
    bound d5 d6 (hexDigitVal_le15 c5 d5 e5) (hexDigitVal_le15 c6 d6 e6)⟩
  show (do
    let r ← parseHexPair [c1, c2]
    let g ← parseHexPair [c3, c4]
    let b ← parseHexPair [c5, c6]
    some ((r : ℚ) / 255, (g : ℚ) / 255, (b : ℚ) / 255) : Option (ℚ × ℚ × ℚ)) = _
  rw [hp1, hp2, hp3]
  rfl

theorem claim_c10_witness :
    (hexDigitVal 'F' = some 15 ∧ hexDigitVal '8' = some 8 ∧
      hexDigitVal '0' = some 0) ∧
    (hex_to_rgb_floats ['#', 'F', 'F', '8', '0', '0', '0'] =
      some (((15 * 16 + 15 : ℕ) : ℚ) / 255, ((8 * 16 + 0 : ℕ) : ℚ) / 255,
        ((0 * 16 + 0 : ℕ) : ℚ) / 255) ∧
      (0 ≤ ((15 * 16 + 15 : ℕ) : ℚ) / 255 ∧ ((15 * 16 + 15 : ℕ) : ℚ) / 255 ≤ 1) ∧
      (0 ≤ ((8 * 16 + 0 : ℕ) : ℚ) / 255 ∧ ((8 * 16 + 0 : ℕ) : ℚ) / 255 ≤ 1) ∧
      (0 ≤ ((0 * 16 + 0 : ℕ) : ℚ) / 255 ∧ ((0 * 16 + 0 : ℕ) : ℚ) / 255 ≤ 1)) :=
  ⟨⟨by decide, by decide, by decide⟩,
    claim_c10 'F' 'F' '8' '0' '0' '0' 15 15 8 0 0 0 (by decide) (by decide)
      (by decide) (by decide) (by decide) (by decide)⟩
